import Mathlib

/-!
The program `comm`: lines common to two sorted files.

A shallow embedding of `comm/comm.go` (u-root) and a verification of the
properties its specification states about it.

Modelling conventions.

* A Go `string` is a Lean `String`.  Go compares strings byte by byte; on
  well-formed UTF-8 that is the code point order, which is the order of Lean
  strings.
* A channel that a producer fills and then closes is the finite list of the
  values sent on it.  A receive `s, ok := <-c` is `recv`: it yields the next
  value and `true`, or the zero value `""` and `false` once the channel is
  drained and closed.
* `strings.EqualFold` belongs to the Go standard library.  The merge takes it
  as an argument; `EqualFoldASCII` is its behaviour on ASCII text, used to run
  the merge on concrete inputs.
* The stream behind the `bufio.Reader` of `reader` is a `File`: the data its
  reads deliver, and the error (`io.EOF` or another one) reported once that
  data is used up.
* Standard output is the list of the lines handed to `fmt.Println`.
* `main` takes `flag.Args()` and `os.Open` as arguments and yields what the
  process leaves behind: standard output, standard error and the exit status.
-/

namespace Comm

/-! ## The data model -/

/-- The row type `out` of the source: three string slots. -/
structure out where
  s1 : String
  s2 : String
  s3 : String
  deriving DecidableEq, Repr

/-- A receive `s, ok := <-c` on a channel whose remaining traffic is the list
`c`: the value, the `ok` flag, and the traffic left. -/
def recv : List String → String × Bool × List String
  | [] => ("", false, [])
  | x :: xs => (x, true, xs)

/-! ## The merge classifier `outer` -/

/-- The `for` loop of `outer`.  The state is the two pending heads with their
`ok` flags and the traffic still to come on `c1` and `c2`; the result is the
list of rows sent on `c` before it is closed. -/
def outerLoop (insensitive : Bool) (EqualFold : String → String → Bool)
    (s1 : String) (ok1 : Bool) (c1 : List String)
    (s2 : String) (ok2 : Bool) (c2 : List String) : List out :=
  if ok1 && ok2 then
    let s2 := if insensitive && EqualFold s1 s2 then s1 else s2
    if s1 < s2 then
      out.mk s1 "" "" :: outerLoop insensitive EqualFold (recv c1).1 (recv c1).2.1 (recv c1).2.2 s2 ok2 c2
    else if s1 > s2 then
      out.mk "" s2 "" :: outerLoop insensitive EqualFold s1 ok1 c1 (recv c2).1 (recv c2).2.1 (recv c2).2.2
    else
      out.mk "" "" s2 :: outerLoop insensitive EqualFold (recv c1).1 (recv c1).2.1 (recv c1).2.2
        (recv c2).1 (recv c2).2.1 (recv c2).2.2
  else if ok1 then
    out.mk s1 "" "" :: outerLoop insensitive EqualFold (recv c1).1 (recv c1).2.1 (recv c1).2.2 s2 ok2 c2
  else if ok2 then
    out.mk "" s2 "" :: outerLoop insensitive EqualFold s1 ok1 c1 (recv c2).1 (recv c2).2.1 (recv c2).2.2
  else
    []
termination_by (if ok1 then 1 else 0) + c1.length + ((if ok2 then 1 else 0) + c2.length)
decreasing_by
  all_goals simp_wf
  all_goals (cases c1 <;> cases c2 <;> simp_all [recv] <;> omega)

/-- The function `outer`: receive the first head of each side, then loop. -/
def outer (insensitive : Bool) (EqualFold : String → String → Bool)
    (c1 c2 : List String) : List out :=
  outerLoop insensitive EqualFold (recv c1).1 (recv c1).2.1 (recv c1).2.2
    (recv c2).1 (recv c2).2.1 (recv c2).2.2

/-- The behaviour of `strings.EqualFold` on ASCII text: two strings are equal
under case folding when they are equal after every letter `A`..`Z` is replaced
by its lower-case form. -/
def EqualFoldASCII (s t : String) : Bool :=
  s.data.map Char.toLower == t.data.map Char.toLower

/-- The case-folded form of an ASCII string: every letter `A`..`Z` replaced by
its lower-case form. -/
def foldASCII (s : String) : String :=
  String.mk (s.data.map Char.toLower)

/-- The merge as the specification words it (case-sensitive step rule): with
both heads pending, `a < b` emits an A row and advances A, `a > b` emits a B
row and advances B, `a = b` emits a Both row with `b` and advances both; with
one side exhausted the other side is copied out; stop when both are exhausted. -/
def refMerge : List String → List String → List out
  | [], [] => []
  | a :: A, [] => out.mk a "" "" :: refMerge A []
  | [], b :: B => out.mk "" b "" :: refMerge [] B
  | a :: A, b :: B =>
    if a < b then out.mk a "" "" :: refMerge A (b :: B)
    else if a > b then out.mk "" b "" :: refMerge (a :: A) B
    else out.mk "" "" b :: refMerge A B
termination_by A B => A.length + B.length

/-- The number of populated (non-empty) slots of a row. -/
def out.populated (o : out) : Nat :=
  (if o.s1 ≠ "" then 1 else 0) + (if o.s2 ≠ "" then 1 else 0) + (if o.s3 ≠ "" then 1 else 0)

/-- The lines of a sequence with the empty-string lines left out. -/
def nonEmptyLines (l : List String) : List String :=
  l.filter (fun t => t != "")

/-! ## The output formatter (loop of `main`) -/

/-- Go's `strings.TrimRight(s, cutset)`: `s` without its trailing code points
that occur in `cutset`. -/
def TrimRight (s cutset : String) : String :=
  String.mk (s.data.rdropWhile (fun c => cutset.data.contains c))

/-- The body of the printing loop of `main` for one row received from `c`,
with `s1`, `s2`, `s3` the three suppression flags: the line handed to
`fmt.Println`, or `none` when nothing is printed for the row. -/
def printRow (s1 s2 s3 : Bool) (o : out) : Option String :=
  let line := ""
  let line := if !s1 then line ++ o.s1 else line
  let line := line ++ "\t"
  let line := if !s2 then line ++ o.s2 else line
  let line := line ++ "\t"
  let line := if !s3 then line ++ o.s3 else line
  if line != "\t\t" then some (TrimRight line "\t") else none

/-- The printing loop of `main`: the lines printed, in order, for the rows
received from `c` until it is closed. -/
def mainLoop (s1 s2 s3 : Bool) (c : List out) : List String :=
  c.filterMap (printRow s1 s2 s3)

/-! ## The line source `reader` -/

/-- The error a read reports once the data of the stream is used up: `io.EOF`
or some other error. -/
inductive ReadError where
  | EOF
  | other
  deriving DecidableEq, Repr

/-- The stream behind a `bufio.Reader`: the data that reads deliver before the
stream ends, and the error the stream ends with. -/
structure File where
  data : List Char
  err : ReadError
  deriving DecidableEq, Repr

/-- The data up to and including the first `delim`, and the data after it;
`none` when there is no `delim`. -/
def readUntil (delim : Char) : List Char → Option (List Char × List Char)
  | [] => none
  | c :: cs =>
    if c = delim then some ([c], cs)
    else match readUntil delim cs with
      | some (l, rest) => some (c :: l, rest)
      | none => none

/-- The call `b.ReadString(delim)` of `bufio.Reader`: the data up to and
including the first `delim` with no error, or, when the stream ends before a
`delim` is found, the data read before the error together with the error.  The
third component is the stream left for the next call. -/
def ReadString (delim : Char) (f : File) : String × Option ReadError × File :=
  match readUntil delim f.data with
  | some (l, rest) => (String.mk l, none, File.mk rest f.err)
  | none => (String.mk f.data, some f.err, File.mk [] f.err)

/-- The function `reader`: the lines sent on `c` before it is closed.  Each
iteration reads up to the next newline, sends the trimmed text, and stops when
the read reported an error. -/
def reader (f : File) : List String :=
  TrimRight (ReadString '\n' f).1 "\r\n" ::
    (if (ReadString '\n' f).2.1 ≠ none then [] else reader (ReadString '\n' f).2.2)
termination_by f.data.length
decreasing_by
  rename_i hne
  have key : ∀ (l pre rest : List Char), readUntil '\n' l = some (pre, rest) →
      rest.length < l.length := by
    intro l
    induction l with
    | nil => intro pre rest h; simp [readUntil] at h
    | cons c cs ih =>
      intro pre rest h
      simp only [readUntil] at h
      split at h
      · simp only [Option.some.injEq, Prod.mk.injEq] at h
        rw [← h.2]
        simp
      · split at h
        · rename_i l2 rest2 h2
          simp only [Option.some.injEq, Prod.mk.injEq] at h
          have := ih l2 rest2 h2
          rw [← h.2]
          simp only [List.length_cons]
          omega
        · simp at h
  simp only [ReadString] at hne ⊢
  split at hne
  · rename_i l rest h
    simp only [h]
    exact key _ _ _ h
  · simp at hne

/-! ## The loop of `outer`, one iteration at a time -/

/-- The variables of `outer` at the head of its loop (the two pending heads and
their `ok` flags), with the traffic still to come on `c1` and `c2`. -/
structure LoopState where
  s1 : String
  ok1 : Bool
  c1 : List String
  s2 : String
  ok2 : Bool
  c2 : List String
  deriving DecidableEq, Repr

/-- The state in which `outer` enters its loop: one receive on each channel. -/
def LoopState.init (c1 c2 : List String) : LoopState :=
  LoopState.mk (recv c1).1 (recv c1).2.1 (recv c1).2.2 (recv c2).1 (recv c2).2.1 (recv c2).2.2

/-- The lines not yet consumed by the loop: the pending heads and the traffic
still to come. -/
def LoopState.pending (st : LoopState) : Nat :=
  (if st.ok1 then 1 else 0) + st.c1.length + ((if st.ok2 then 1 else 0) + st.c2.length)

/-- One iteration of the loop of `outer`: `none` when the iteration is the
`break`, otherwise the row sent on `c` and the state at the next iteration. -/
def outerStep (insensitive : Bool) (EqualFold : String → String → Bool)
    (st : LoopState) : Option (out × LoopState) :=
  if st.ok1 && st.ok2 then
    let s2 := if insensitive && EqualFold st.s1 st.s2 then st.s1 else st.s2
    if st.s1 < s2 then
      some (out.mk st.s1 "" "",
        LoopState.mk (recv st.c1).1 (recv st.c1).2.1 (recv st.c1).2.2 s2 st.ok2 st.c2)
    else if st.s1 > s2 then
      some (out.mk "" s2 "",
        LoopState.mk st.s1 st.ok1 st.c1 (recv st.c2).1 (recv st.c2).2.1 (recv st.c2).2.2)
    else
      some (out.mk "" "" s2,
        LoopState.mk (recv st.c1).1 (recv st.c1).2.1 (recv st.c1).2.2
          (recv st.c2).1 (recv st.c2).2.1 (recv st.c2).2.2)
  else if st.ok1 then
    some (out.mk st.s1 "" "",
      LoopState.mk (recv st.c1).1 (recv st.c1).2.1 (recv st.c1).2.2 st.s2 st.ok2 st.c2)
  else if st.ok2 then
    some (out.mk "" st.s2 "",
      LoopState.mk st.s1 st.ok1 st.c1 (recv st.c2).1 (recv st.c2).2.1 (recv st.c2).2.2)
  else
    none

/-- The loop of `outer` run for at most `fuel` iterations: the rows sent when
the loop reaches its `break` within them, `none` when it does not. -/
def outerRun (insensitive : Bool) (EqualFold : String → String → Bool) :
    Nat → LoopState → Option (List out)
  | 0, _ => none
  | fuel + 1, st =>
    match outerStep insensitive EqualFold st with
    | none => some []
    | some (row, st') =>
      match outerRun insensitive EqualFold fuel st' with
      | none => none
      | some rows => some (row :: rows)

/-! ## The formatter's line before the test -/

/-- The value of `line` in the loop body of `main` when it reaches the test
`line != "\t\t"`. -/
def rowLine (s1 s2 s3 : Bool) (o : out) : String :=
  let line := ""
  let line := if !s1 then line ++ o.s1 else line
  let line := line ++ "\t"
  let line := if !s2 then line ++ o.s2 else line
  let line := line ++ "\t"
  let line := if !s3 then line ++ o.s3 else line
  line

/-! ## The function `main` -/

/-- What is written to standard error: the usage text of `usage`, or the error
of a failed `os.Open`. -/
inductive Diag where
  | usage
  | openError (err : String)
  deriving DecidableEq, Repr

/-- What a run of the program leaves behind: the lines printed on standard
output, what was written to standard error, and the exit status. -/
structure Outcome where
  stdout : List String
  stderr : List Diag
  status : Nat
  deriving DecidableEq, Repr

/-- The function `main`.  `args` is `flag.Args()` and `Open` is `os.Open`,
giving the opened file or the error.  A wrong argument count runs `usage`,
which ends the process with `os.Exit(1)`; a failed open writes the error and
returns from `main`, so that the process ends with status 0; otherwise the
pipeline runs and `main` returns when `c` is closed. -/
def main (s1 s2 s3 insensitive : Bool) (EqualFold : String → String → Bool)
    (Open : String → Except String File) (args : List String) : Outcome :=
  match args with
  | [name1, name2] =>
    match Open name1 with
    | Except.error err => Outcome.mk [] [Diag.openError err] 0
    | Except.ok f1 =>
      match Open name2 with
      | Except.error err => Outcome.mk [] [Diag.openError err] 0
      | Except.ok f2 =>
        Outcome.mk (mainLoop s1 s2 s3 (outer insensitive EqualFold (reader f1) (reader f2))) [] 0
  | _ => Outcome.mk [] [Diag.usage] 1

/-! ## Unfolding the loop -/

theorem recv_nil : recv [] = ("", false, []) := rfl

theorem recv_cons (x : String) (xs : List String) : recv (x :: xs) = (x, true, xs) := rfl

theorem outer_nil_nil (ins : Bool) (EF : String → String → Bool) :
    outer ins EF [] [] = [] := by
  simp only [outer, recv_nil]
  rw [outerLoop]
  simp

theorem outer_nil_cons (ins : Bool) (EF : String → String → Bool) (b : String)
    (B : List String) :
    outer ins EF [] (b :: B) = out.mk "" b "" :: outer ins EF [] B := by
  simp only [outer, recv_nil, recv_cons]
  rw [outerLoop]
  simp

theorem outer_cons_nil (ins : Bool) (EF : String → String → Bool) (a : String)
    (A : List String) :
    outer ins EF (a :: A) [] = out.mk a "" "" :: outer ins EF A [] := by
  simp only [outer, recv_nil, recv_cons]
  rw [outerLoop]
  simp

/-- One iteration of the loop with both heads pending. -/
theorem outer_cons_cons (ins : Bool) (EF : String → String → Bool) (a b : String)
    (A B : List String) :
    outer ins EF (a :: A) (b :: B) =
      if (ins && EF a b) = true then out.mk "" "" a :: outer ins EF A B
      else if a < b then out.mk a "" "" :: outer ins EF A (b :: B)
      else if b < a then out.mk "" b "" :: outer ins EF (a :: A) B
      else out.mk "" "" b :: outer ins EF A B := by
  simp only [outer, recv_cons]
  rw [outerLoop]
  by_cases h : (ins && EF a b) = true
  · simp only [h, if_true, Bool.and_self, lt_irrefl, gt_iff_lt, if_false]
  · simp only [h, if_false, Bool.and_self, if_true, gt_iff_lt, Bool.false_eq_true]

theorem outer_nil_left (ins : Bool) (EF : String → String → Bool) (B : List String) :
    outer ins EF [] B = B.map (fun b => out.mk "" b "") := by
  induction B with
  | nil => exact outer_nil_nil ins EF
  | cons b B ih => rw [outer_nil_cons, ih, List.map_cons]

theorem outer_nil_right (ins : Bool) (EF : String → String → Bool) (A : List String) :
    outer ins EF A [] = A.map (fun a => out.mk a "" "") := by
  induction A with
  | nil => exact outer_nil_nil ins EF
  | cons a A ih => rw [outer_cons_nil, ih, List.map_cons]

/-- Case-sensitive mode, both heads pending. -/
theorem outer_sensitive_cons_cons (EF : String → String → Bool) (a b : String)
    (A B : List String) :
    outer false EF (a :: A) (b :: B) =
      if a < b then out.mk a "" "" :: outer false EF A (b :: B)
      else if b < a then out.mk "" b "" :: outer false EF (a :: A) B
      else out.mk "" "" b :: outer false EF A B := by
  rw [outer_cons_cons]
  simp

/-- The loop computes the reference merge in case-sensitive mode. -/
theorem outer_sensitive_eq_refMerge (EF : String → String → Bool) :
    ∀ (n : Nat) (A B : List String), A.length + B.length = n →
      outer false EF A B = refMerge A B := by
  intro n
  induction n using Nat.strong_induction_on with
  | _ n ih =>
    intro A B hn
    match A, B with
    | [], [] => rw [outer_nil_nil, refMerge]
    | a :: A, [] =>
      rw [outer_cons_nil, refMerge, ih (A.length + 0) (by simp at hn ⊢; omega) A [] rfl]
    | [], b :: B =>
      rw [outer_nil_cons, refMerge, ih (0 + B.length) (by simp at hn ⊢; omega) [] B rfl]
    | a :: A, b :: B =>
      rw [outer_sensitive_cons_cons, refMerge]
      simp only [List.length_cons] at hn
      rw [ih _ (by simp only [List.length_cons]; omega) A (b :: B) rfl,
        ih _ (by simp only [List.length_cons]; omega) (a :: A) B rfl,
        ih _ (by omega) A B rfl]

/-! ## Claims about the merge classifier -/

/-- C3: under case-sensitive comparison the row sequence emitted by `outer`
equals the reference merge given by the step rule of the specification, for
all finite line sequences, sorted or not. -/
theorem C3_outer_refines_step_rule (EF : String → String → Bool) (A B : List String) :
    outer false EF A B = refMerge A B :=
  outer_sensitive_eq_refMerge EF _ A B rfl

/-- C9: in either comparison mode, if A is empty `outer` emits exactly one
B-only row per line of B in B's order, if B is empty exactly one A-only row per
line of A in A's order, and if both are empty no rows. -/
theorem C9_empty_input_boundary (ins : Bool) (EF : String → String → Bool)
    (A B : List String) :
    outer ins EF [] B = B.map (fun b => out.mk "" b "") ∧
    outer ins EF A [] = A.map (fun a => out.mk a "" "") ∧
    outer ins EF [] [] = [] :=
  ⟨outer_nil_left ins EF B, outer_nil_right ins EF A, outer_nil_nil ins EF⟩

/-- Induction along the merge: the three ways a step can advance. -/
theorem merge_induction {P : List String → List String → Prop}
    (nil_nil : P [] [])
    (cons_nil : ∀ a A, P A [] → P (a :: A) [])
    (nil_cons : ∀ b B, P [] B → P [] (b :: B))
    (cons_cons : ∀ a A b B, P A (b :: B) → P (a :: A) B → P A B → P (a :: A) (b :: B)) :
    ∀ A B, P A B := by
  intro A
  induction A with
  | nil =>
    intro B
    induction B with
    | nil => exact nil_nil
    | cons b B ih => exact nil_cons b B ih
  | cons a A ihA =>
    intro B
    induction B with
    | nil => exact cons_nil a A (ihA [])
    | cons b B ihB => exact cons_cons a A b B (ihA (b :: B)) ihB (ihA B)

theorem outer_insensitive_equal (EF : String → String → Bool) (a b : String)
    (A B : List String) (h : EF a b = true) :
    outer true EF (a :: A) (b :: B) = out.mk "" "" a :: outer true EF A B := by
  rw [outer_cons_cons]
  simp [h]

theorem outer_insensitive_pairwise (EF : String → String → Bool) (A B : List String)
    (h : List.Forall₂ (fun a b => EF a b = true) A B) :
    outer true EF A B = A.map (fun a => out.mk "" "" a) := by
  induction h with
  | nil => exact outer_nil_nil true EF
  | cons hab _ ih => rw [outer_insensitive_equal EF _ _ _ _ hab, ih, List.map_cons]

/-- C5 (as stated, refuted): for A = ["Apple"], B = ["apple"] in case-insensitive
mode the single emitted row is Both("Apple"), not Both("apple"). -/
theorem C5_both_row_is_not_B_text :
    EqualFoldASCII "Apple" "apple" = true ∧
    outer true EqualFoldASCII ["Apple"] ["apple"] ≠ [out.mk "" "" "apple"] := by
  refine ⟨by decide, ?_⟩
  rw [outer_insensitive_equal EqualFoldASCII _ _ _ _ (by decide), outer_nil_nil]
  decide

/-- C5 (amended): in case-insensitive mode, whenever the two pending heads are
equal under case folding, `outer` emits a Both row carrying the A-side line's
exact text and advances both sides. -/
theorem C5_both_row_carries_A_text (EF : String → String → Bool) (a b : String)
    (A B : List String) (h : EF a b = true) :
    outer true EF (a :: A) (b :: B) = out.mk "" "" a :: outer true EF A B :=
  outer_insensitive_equal EF a b A B h

theorem C5_both_row_carries_A_text_witness :
    EqualFoldASCII "Apple" "apple" = true ∧
    outer true EqualFoldASCII ["Apple"] ["apple"] = [out.mk "" "" "Apple"] :=
  ⟨by decide,
    (C5_both_row_carries_A_text EqualFoldASCII "Apple" "apple" [] [] (by decide)).trans
      (by rw [outer_nil_nil])⟩

/-- C6 (code evaluated at the failing input): in case-insensitive mode with
A = ["Banana"], B = ["apple", "banana"], the folded head of A is greater than
the folded head of B, yet `outer` takes the LESS branch: it emits "Banana" as
an A-only row first, and the common line is never paired. -/
theorem C6_insensitive_order_is_raw :
    foldASCII "apple" < foldASCII "Banana" ∧
    outer true EqualFoldASCII ["Banana"] ["apple", "banana"] =
      [out.mk "Banana" "" "", out.mk "" "apple" "", out.mk "" "banana" ""] := by
  constructor
  · simp +decide [foldASCII]
  · simp +decide [outer, outerLoop, recv]

/-- C7: in case-insensitive mode, for line sequences of the same length whose
lines are pairwise equal under case folding, `outer` emits exactly |A| rows and
every one of them has empty s1 and s2 slots. -/
theorem C7_fold_equal_lines_merge (EF : String → String → Bool) (A B : List String)
    (h : List.Forall₂ (fun a b => EF a b = true) A B) :
    (outer true EF A B).length = A.length ∧
    ∀ r ∈ outer true EF A B, r.s1 = "" ∧ r.s2 = "" := by
  rw [outer_insensitive_pairwise EF A B h]
  constructor
  · simp
  · intro r hr
    simp only [List.mem_map] at hr
    obtain ⟨a, _, rfl⟩ := hr
    exact ⟨rfl, rfl⟩

theorem C7_fold_equal_lines_merge_witness :
    List.Forall₂ (fun a b => EqualFoldASCII a b = true) ["Apple", "b"] ["apple", "B"] ∧
    (outer true EqualFoldASCII ["Apple", "b"] ["apple", "B"]).length = 2 ∧
    ∀ r ∈ outer true EqualFoldASCII ["Apple", "b"] ["apple", "B"], r.s1 = "" ∧ r.s2 = "" :=
  have h : List.Forall₂ (fun a b => EqualFoldASCII a b = true) ["Apple", "b"] ["apple", "B"] :=
    List.Forall₂.cons (by decide) (List.Forall₂.cons (by decide) List.Forall₂.nil)
  ⟨h, C7_fold_equal_lines_merge EqualFoldASCII ["Apple", "b"] ["apple", "B"] h⟩

theorem nonEmptyLines_nil : nonEmptyLines [] = [] := rfl

theorem nonEmptyLines_cons (a : String) (l : List String) :
    nonEmptyLines (a :: l) = if a = "" then nonEmptyLines l else a :: nonEmptyLines l := by
  by_cases h : a = "" <;> simp [nonEmptyLines, List.filter_cons, h]

theorem eq_of_not_lt_not_lt {a b : String} (h1 : ¬ a < b) (h2 : ¬ b < a) : a = b :=
  le_antisymm (not_lt.mp h2) (not_lt.mp h1)

theorem textA_outer_sensitive (EF : String → String → Bool) (A B : List String) :
    nonEmptyLines ((outer false EF A B).map (fun r => r.s1 ++ r.s3)) = nonEmptyLines A := by
  revert A B
  apply merge_induction
  · simp [outer_nil_nil]
  · intro a A ih
    rw [outer_cons_nil]
    simp [nonEmptyLines_cons, ih]
  · intro b B ih
    rw [outer_nil_cons]
    simp [nonEmptyLines_cons, ih]
  · intro a A b B ih1 ih2 ih3
    rw [outer_sensitive_cons_cons]
    split
    · simp [nonEmptyLines_cons, ih1]
    · split
      · simp [nonEmptyLines_cons, ih2]
      · rename_i h1 h2
        have hab : a = b := eq_of_not_lt_not_lt h1 h2
        subst hab
        simp [nonEmptyLines_cons, ih3]

theorem textB_outer_sensitive (EF : String → String → Bool) (A B : List String) :
    nonEmptyLines ((outer false EF A B).map (fun r => r.s2 ++ r.s3)) = nonEmptyLines B := by
  revert A B
  apply merge_induction
  · simp [outer_nil_nil]
  · intro a A ih
    rw [outer_cons_nil]
    simp [nonEmptyLines_cons, ih]
  · intro b B ih
    rw [outer_nil_cons]
    simp [nonEmptyLines_cons, ih]
  · intro a A b B ih1 ih2 ih3
    rw [outer_sensitive_cons_cons]
    split
    · simp [nonEmptyLines_cons, ih1]
    · split
      · simp [nonEmptyLines_cons, ih2]
      · simp [nonEmptyLines_cons, ih3]

/-- C2: under case-sensitive comparison, for all line sequences (sorted or
not), the s1-or-s3 texts of the emitted rows, in emission order, are exactly A
in A's order, and the s2-or-s3 texts are exactly B in B's order, empty-string
lines being disregarded on both sides. -/
theorem C2_partition_and_order (EF : String → String → Bool) (A B : List String) :
    nonEmptyLines ((outer false EF A B).map (fun r => r.s1 ++ r.s3)) = nonEmptyLines A ∧
    nonEmptyLines ((outer false EF A B).map (fun r => r.s2 ++ r.s3)) = nonEmptyLines B :=
  ⟨textA_outer_sensitive EF A B, textB_outer_sensitive EF A B⟩

theorem text_mem_outer_sensitive (EF : String → String → Bool) (A B : List String) :
    ∀ t ∈ (outer false EF A B).map (fun r => r.s1 ++ r.s2 ++ r.s3), t ∈ A ∨ t ∈ B := by
  revert A B
  apply merge_induction
  · simp [outer_nil_nil]
  · intro a A ih t ht
    rw [outer_cons_nil] at ht
    simp only [List.map_cons, List.mem_cons, String.append_empty] at ht
    rcases ht with rfl | ht
    · simp
    · rcases ih t ht with h | h
      · exact Or.inl (List.mem_cons_of_mem _ h)
      · exact Or.inr h
  · intro b B ih t ht
    rw [outer_nil_cons] at ht
    simp only [List.map_cons, List.mem_cons, String.append_empty, String.empty_append] at ht
    rcases ht with rfl | ht
    · simp
    · rcases ih t ht with h | h
      · exact Or.inl h
      · exact Or.inr (List.mem_cons_of_mem _ h)
  · intro a A b B ih1 ih2 ih3 t ht
    rw [outer_sensitive_cons_cons] at ht
    split at ht
    · simp only [List.map_cons, List.mem_cons, String.append_empty] at ht
      rcases ht with rfl | ht
      · simp
      · rcases ih1 t ht with h | h
        · exact Or.inl (List.mem_cons_of_mem _ h)
        · exact Or.inr h
    · split at ht
      · simp only [List.map_cons, List.mem_cons, String.append_empty, String.empty_append] at ht
        rcases ht with rfl | ht
        · simp
        · rcases ih2 t ht with h | h
          · exact Or.inl h
          · exact Or.inr (List.mem_cons_of_mem _ h)
      · simp only [List.map_cons, List.mem_cons, String.append_empty, String.empty_append] at ht
        rcases ht with rfl | ht
        · simp
        · rcases ih3 t ht with h | h
          · exact Or.inl (List.mem_cons_of_mem _ h)
          · exact Or.inr (List.mem_cons_of_mem _ h)

theorem texts_sorted_outer_sensitive (EF : String → String → Bool) (A B : List String) :
    List.Sorted (· ≤ ·) A → List.Sorted (· ≤ ·) B →
      List.Sorted (· ≤ ·) ((outer false EF A B).map (fun r => r.s1 ++ r.s2 ++ r.s3)) := by
  revert A B
  apply merge_induction
  · intro _ _
    simp [outer_nil_nil]
  · intro a A _ hA _
    rw [outer_nil_right]
    simpa [Function.comp_def] using hA
  · intro b B _ _ hB
    rw [outer_nil_left]
    simpa [Function.comp_def] using hB
  · intro a A b B ih1 ih2 ih3 hA hB
    have hA2 := List.sorted_cons.mp hA
    have hB2 := List.sorted_cons.mp hB
    rw [outer_sensitive_cons_cons]
    split
    · rename_i hab
      simp only [List.map_cons, String.append_empty]
      refine List.sorted_cons.mpr ⟨?_, ih1 hA2.2 hB⟩
      intro t ht
      rcases text_mem_outer_sensitive EF A (b :: B) t ht with h | h
      · exact hA2.1 t h
      · rcases List.mem_cons.mp h with rfl | h
        · exact le_of_lt hab
        · exact le_trans (le_of_lt hab) (hB2.1 t h)
    · split
      · rename_i hab hba
        simp only [List.map_cons, String.append_empty, String.empty_append]
        refine List.sorted_cons.mpr ⟨?_, ih2 hA hB2.2⟩
        intro t ht
        rcases text_mem_outer_sensitive EF (a :: A) B t ht with h | h
        · rcases List.mem_cons.mp h with rfl | h
          · exact le_of_lt hba
          · exact le_trans (le_of_lt hba) (hA2.1 t h)
        · exact hB2.1 t h
      · rename_i hab hba
        have e : a = b := eq_of_not_lt_not_lt hab hba
        simp only [List.map_cons, String.append_empty, String.empty_append]
        refine List.sorted_cons.mpr ⟨?_, ih3 hA2.2 hB2.2⟩
        intro t ht
        rcases text_mem_outer_sensitive EF A B t ht with h | h
        · exact e ▸ hA2.1 t h
        · exact hB2.1 t h

/-- C8: under case-sensitive comparison, for line sequences A and B each sorted
in non-decreasing order, the line texts carried by the emitted rows (each row's
s1 ++ s2 ++ s3), in emission order, are non-decreasing. -/
theorem C8_sorted_inputs_sorted_output (EF : String → String → Bool) (A B : List String)
    (hA : List.Sorted (· ≤ ·) A) (hB : List.Sorted (· ≤ ·) B) :
    List.Sorted (· ≤ ·) ((outer false EF A B).map (fun r => r.s1 ++ r.s2 ++ r.s3)) :=
  texts_sorted_outer_sensitive EF A B hA hB

theorem C8_sorted_inputs_sorted_output_witness :
    List.Sorted (· ≤ ·) ["a", "b", "d"] ∧ List.Sorted (· ≤ ·) ["b", "c", "d"] ∧
    List.Sorted (· ≤ ·)
      ((outer false EqualFoldASCII ["a", "b", "d"] ["b", "c", "d"]).map
        (fun r => r.s1 ++ r.s2 ++ r.s3)) :=
  have hA : List.Sorted (· ≤ ·) ["a", "b", "d"] := by simp +decide [List.Sorted]
  have hB : List.Sorted (· ≤ ·) ["b", "c", "d"] := by simp +decide [List.Sorted]
  ⟨hA, hB, C8_sorted_inputs_sorted_output EqualFoldASCII _ _ hA hB⟩

theorem count_eq_zero_of_lt_head {x b : String} {B : List String}
    (hB : List.Sorted (· ≤ ·) (b :: B)) (h : x < b) : (b :: B).count x = 0 := by
  rw [List.count_eq_zero]
  intro hx
  rcases List.mem_cons.mp hx with rfl | hx
  · exact lt_irrefl _ h
  · exact absurd ((List.sorted_cons.mp hB).1 x hx) (not_le.mpr h)

theorem counts_outer_sensitive (EF : String → String → Bool) (x : String) (hx : x ≠ "")
    (A B : List String) :
    List.Sorted (· ≤ ·) A → List.Sorted (· ≤ ·) B →
      (outer false EF A B).countP (fun r => r.s3 == x) = min (A.count x) (B.count x) ∧
      (outer false EF A B).countP (fun r => r.s1 == x) =
        A.count x - min (A.count x) (B.count x) ∧
      (outer false EF A B).countP (fun r => r.s2 == x) =
        B.count x - min (A.count x) (B.count x) := by
  have hx' : ¬ ("" = x) := fun h => hx h.symm
  revert A B
  apply merge_induction
  · intro _ _
    simp [outer_nil_nil]
  · intro a A ih hA _
    obtain ⟨i1, i2, i3⟩ := ih (List.sorted_cons.mp hA).2 List.sorted_nil
    rw [outer_cons_nil]
    simp only [List.countP_cons, List.count_cons, i1, i2, i3, beq_iff_eq, hx', if_false,
      List.count_nil]
    split <;> simp
  · intro b B ih _ hB
    obtain ⟨i1, i2, i3⟩ := ih List.sorted_nil (List.sorted_cons.mp hB).2
    rw [outer_nil_cons]
    simp only [List.countP_cons, List.count_cons, i1, i2, i3, beq_iff_eq, hx', if_false,
      List.count_nil]
    split <;> simp
  · intro a A b B ih1 ih2 ih3 hA hB
    have hA2 := (List.sorted_cons.mp hA).2
    have hB2 := (List.sorted_cons.mp hB).2
    rw [outer_sensitive_cons_cons]
    split
    · rename_i hab
      obtain ⟨i1, i2, i3⟩ := ih1 hA2 hB
      simp only [List.countP_cons, i1, i2, i3, beq_iff_eq, hx', if_false]
      by_cases hax : a = x
      · subst hax
        have hz := count_eq_zero_of_lt_head hB hab
        simp [hz]
      · have hax' : ¬ ((a == x) = true) := by simpa using hax
        simp [List.count_cons, hax, hax']
    · split
      · rename_i hab hba
        obtain ⟨i1, i2, i3⟩ := ih2 hA hB2
        simp only [List.countP_cons, i1, i2, i3, beq_iff_eq, hx', if_false]
        by_cases hbx : b = x
        · subst hbx
          have hz := count_eq_zero_of_lt_head hA hba
          simp [hz]
        · have hbx' : ¬ ((b == x) = true) := by simpa using hbx
          simp [List.count_cons, hbx, hbx']
      · rename_i hab hba
        have e : a = b := eq_of_not_lt_not_lt hab hba
        subst e
        obtain ⟨i1, i2, i3⟩ := ih3 hA2 hB2
        simp only [List.countP_cons, i1, i2, i3, beq_iff_eq, hx', if_false]
        by_cases hax : a = x
        · subst hax
          simp only [List.count_cons_self, if_true]
          omega
        · have hax' : ¬ ((a == x) = true) := by simpa using hax
          simp [List.count_cons, hax, hax']

theorem exists_row_iff_countP_pos (rows : List out) (f : out → String) (x : String) :
    (∃ r ∈ rows, f r = x) ↔ 0 < rows.countP (fun r => f r == x) := by
  rw [List.countP_pos_iff]
  simp

/-- C1: under case-sensitive comparison, for sorted A and B and every non-empty
line x, the number of rows with x in the Both slot is min(count of x in A,
count of x in B), the number with x in s1 is the count in A minus that minimum,
and the number with x in s2 is the count in B minus that minimum; for
duplicate-free inputs column 3 holds exactly the lines in both, column 1 the
lines only in A, column 2 the lines only in B. -/
theorem C1_three_way_classification (EF : String → String → Bool) (x : String)
    (hx : x ≠ "") (A B : List String)
    (hA : List.Sorted (· ≤ ·) A) (hB : List.Sorted (· ≤ ·) B) :
    ((outer false EF A B).countP (fun r => r.s3 == x) = min (A.count x) (B.count x) ∧
      (outer false EF A B).countP (fun r => r.s1 == x) =
        A.count x - min (A.count x) (B.count x) ∧
      (outer false EF A B).countP (fun r => r.s2 == x) =
        B.count x - min (A.count x) (B.count x)) ∧
    (A.Nodup → B.Nodup →
      ((∃ r ∈ outer false EF A B, r.s3 = x) ↔ x ∈ A ∧ x ∈ B) ∧
      ((∃ r ∈ outer false EF A B, r.s1 = x) ↔ x ∈ A ∧ x ∉ B) ∧
      ((∃ r ∈ outer false EF A B, r.s2 = x) ↔ x ∈ B ∧ x ∉ A)) := by
  have hc := counts_outer_sensitive EF x hx A B hA hB
  refine ⟨hc, ?_⟩
  intro hnA hnB
  obtain ⟨c3, c1, c2⟩ := hc
  have cA : A.count x ≤ 1 := List.nodup_iff_count_le_one.mp hnA x
  have cB : B.count x ≤ 1 := List.nodup_iff_count_le_one.mp hnB x
  have mA : x ∈ A ↔ 0 < A.count x := List.count_pos_iff.symm
  have mB : x ∈ B ↔ 0 < B.count x := List.count_pos_iff.symm
  rw [exists_row_iff_countP_pos _ (fun r => r.s3), exists_row_iff_countP_pos _ (fun r => r.s1),
    exists_row_iff_countP_pos _ (fun r => r.s2), c3, c1, c2, mA, mB]
  refine ⟨?_, ?_, ?_⟩ <;> omega

theorem C1_three_way_classification_witness :
    "b" ≠ "" ∧ List.Sorted (· ≤ ·) ["a", "b", "b"] ∧ List.Sorted (· ≤ ·) ["b", "c"] ∧
    (((outer false EqualFoldASCII ["a", "b", "b"] ["b", "c"]).countP (fun r => r.s3 == "b") =
        min (["a", "b", "b"].count "b") (["b", "c"].count "b") ∧
      (outer false EqualFoldASCII ["a", "b", "b"] ["b", "c"]).countP (fun r => r.s1 == "b") =
        ["a", "b", "b"].count "b" - min (["a", "b", "b"].count "b") (["b", "c"].count "b") ∧
      (outer false EqualFoldASCII ["a", "b", "b"] ["b", "c"]).countP (fun r => r.s2 == "b") =
        ["b", "c"].count "b" - min (["a", "b", "b"].count "b") (["b", "c"].count "b")) ∧
    (["a", "b", "b"].Nodup → ["b", "c"].Nodup →
      ((∃ r ∈ outer false EqualFoldASCII ["a", "b", "b"] ["b", "c"], r.s3 = "b") ↔
        "b" ∈ ["a", "b", "b"] ∧ "b" ∈ ["b", "c"]) ∧
      ((∃ r ∈ outer false EqualFoldASCII ["a", "b", "b"] ["b", "c"], r.s1 = "b") ↔
        "b" ∈ ["a", "b", "b"] ∧ "b" ∉ ["b", "c"]) ∧
      ((∃ r ∈ outer false EqualFoldASCII ["a", "b", "b"] ["b", "c"], r.s2 = "b") ↔
        "b" ∈ ["b", "c"] ∧ "b" ∉ ["a", "b", "b"]))) :=
  have hx : "b" ≠ "" := by decide
  have hA : List.Sorted (· ≤ ·) ["a", "b", "b"] := by simp +decide [List.Sorted]
  have hB : List.Sorted (· ≤ ·) ["b", "c"] := by simp +decide [List.Sorted]
  ⟨hx, hA, hB, C1_three_way_classification EqualFoldASCII "b" hx _ _ hA hB⟩

/-! ## Claims about the output formatter -/

theorem TrimRight_data (s cutset : String) :
    (TrimRight s cutset).data = s.data.rdropWhile (fun c => cutset.data.contains c) := rfl

/-- Trimming tabs from text that does not end in a tab, followed by tabs. -/
theorem trimTabs_append_tabs (l : List Char) (n : Nat)
    (h : l.getLast? ≠ some '\t') :
    (l ++ List.replicate n '\t').rdropWhile (fun c => "\t".data.contains c) = l := by
  induction n with
  | zero =>
    simp only [List.replicate_zero, List.append_nil]
    rw [List.rdropWhile_eq_self_iff]
    intro hl hp
    apply h
    rw [List.getLast?_eq_getLast _ hl]
    simp at hp
    rw [hp]
  | succ n ih =>
    rw [List.replicate_succ', ← List.append_assoc, List.rdropWhile_concat_pos _ _ _ (by decide)]
    exact ih

theorem getLast?_tabs_append (n : Nat) (l : List Char) (hne : l ≠ []) :
    (List.replicate n '\t' ++ l).getLast? = l.getLast? := by
  rw [List.getLast?_append]
  cases h : l.getLast? with
  | none => exact absurd (List.getLast?_eq_none_iff.mp h) hne
  | some c => rfl

/-- The line printed for a row whose text `x` sits behind `n` separator slots
and before `m` more, when `x` is non-empty and does not end in a tab. -/
theorem TrimRight_tabs (x : String) (n m : Nat) (hx : x ≠ "")
    (ht : x.data.getLast? ≠ some '\t') :
    TrimRight (String.mk (List.replicate n '\t' ++ x.data ++ List.replicate m '\t')) "\t" =
      String.mk (List.replicate n '\t' ++ x.data) := by
  have hne : x.data ≠ [] := fun h => hx (String.ext h)
  apply String.ext
  rw [TrimRight_data]
  exact trimTabs_append_tabs _ m (by rw [getLast?_tabs_append n _ hne]; exact ht)

theorem printRow_A_only (x : String) (hx : x ≠ "") (ht : x.data.getLast? ≠ some '\t') :
    printRow false false false (out.mk x "" "") = some x := by
  have hne : ¬ (x.data = []) := fun h => hx (String.ext h)
  simp only [printRow, Bool.not_false, if_true, String.empty_append, String.append_empty]
  have h1 : (x ++ "\t" ++ "\t" : String) ≠ "\t\t" := by
    intro h
    have := congrArg String.data h
    simp at this
    exact hne this
  have h2 : (x ++ "\t" ++ "\t" : String) = String.mk ([] ++ x.data ++ ['\t', '\t']) := by
    apply String.ext; simp
  rw [if_pos (by simpa using h1), h2]
  have := TrimRight_tabs x 0 2 hx ht
  simp only [List.replicate] at this
  rw [this]
  rfl

theorem printRow_B_only (x : String) (hx : x ≠ "") (ht : x.data.getLast? ≠ some '\t') :
    printRow false false false (out.mk "" x "") = some ("\t" ++ x) := by
  have hne : ¬ (x.data = []) := fun h => hx (String.ext h)
  simp only [printRow, Bool.not_false, if_true, String.empty_append, String.append_empty]
  have h1 : ("\t" ++ x ++ "\t" : String) ≠ "\t\t" := by
    intro h
    have := congrArg String.data h
    simp at this
    exact hne this
  have h2 : ("\t" ++ x ++ "\t" : String) = String.mk (['\t'] ++ x.data ++ ['\t']) := by
    apply String.ext; simp
  rw [if_pos (by simpa using h1), h2]
  have := TrimRight_tabs x 1 1 hx ht
  simp only [List.replicate] at this
  rw [this]
  rfl

theorem printRow_Both (x : String) (hx : x ≠ "") (ht : x.data.getLast? ≠ some '\t') :
    printRow false false false (out.mk "" "" x) = some ("\t\t" ++ x) := by
  have hne : ¬ (x.data = []) := fun h => hx (String.ext h)
  simp only [printRow, Bool.not_false, if_true, String.empty_append, String.append_empty]
  have h1 : ("\t" ++ "\t" ++ x : String) ≠ "\t\t" := by
    intro h
    have := congrArg String.data h
    simp at this
    exact hne this
  have h2 : ("\t" ++ "\t" ++ x : String) = String.mk (['\t', '\t'] ++ x.data ++ []) := by
    apply String.ext; simp
  rw [if_pos (by simpa using h1), h2]
  have := TrimRight_tabs x 2 0 hx ht
  simp only [List.replicate] at this
  rw [this]
  apply congrArg
  apply String.ext
  simp

/-- C4: with no column suppressed, for every line x that is non-empty and does
not end in a tab, an A-only row prints as x, a B-only row as one tab followed
by x, a Both row as two tabs followed by x; and for A = ["a","b","d"],
B = ["b","c","d"] under case-sensitive comparison the printed lines are, in
order, "a", "\t\tb", "\tc", "\t\td". -/
theorem C4_rendering_no_suppression (EF : String → String → Bool) (x : String)
    (hx : x ≠ "") (ht : x.data.getLast? ≠ some '\t') :
    printRow false false false (out.mk x "" "") = some x ∧
    printRow false false false (out.mk "" x "") = some ("\t" ++ x) ∧
    printRow false false false (out.mk "" "" x) = some ("\t\t" ++ x) ∧
    mainLoop false false false (outer false EF ["a", "b", "d"] ["b", "c", "d"]) =
      ["a", "\t\tb", "\tc", "\t\td"] := by
  refine ⟨printRow_A_only x hx ht, printRow_B_only x hx ht, printRow_Both x hx ht, ?_⟩
  have h : outer false EF ["a", "b", "d"] ["b", "c", "d"] =
      [out.mk "a" "" "", out.mk "" "" "b", out.mk "" "c" "", out.mk "" "" "d"] := by
    simp +decide [outer, outerLoop, recv]
  rw [h]
  decide

theorem C4_rendering_no_suppression_witness :
    "c d" ≠ "" ∧ "c d".data.getLast? ≠ some '\t' ∧
    printRow false false false (out.mk "c d" "" "") = some "c d" ∧
    printRow false false false (out.mk "" "c d" "") = some ("\t" ++ "c d") ∧
    printRow false false false (out.mk "" "" "c d") = some ("\t\t" ++ "c d") ∧
    mainLoop false false false (outer false EqualFoldASCII ["a", "b", "d"] ["b", "c", "d"]) =
      ["a", "\t\tb", "\tc", "\t\td"] :=
  ⟨by decide, by decide,
    C4_rendering_no_suppression EqualFoldASCII "c d" (by decide) (by decide)⟩

/-! ## Claims about the line source -/

theorem readUntil_none (d : Char) (l : List Char) (h : readUntil d l = none) : d ∉ l := by
  induction l with
  | nil => simp
  | cons c cs ih =>
    simp only [readUntil] at h
    split at h
    · simp at h
    · rename_i hc
      split at h
      · simp at h
      · rename_i h2
        intro hm
        rcases List.mem_cons.mp hm with e | hm
        · exact hc e.symm
        · exact ih h2 hm

theorem readUntil_some (d : Char) (l pre rest : List Char)
    (h : readUntil d l = some (pre, rest)) :
    ∃ p, d ∉ p ∧ pre = p ++ [d] ∧ l = p ++ d :: rest := by
  induction l generalizing pre rest with
  | nil => simp [readUntil] at h
  | cons c cs ih =>
    simp only [readUntil] at h
    split at h
    · rename_i hc
      simp only [Option.some.injEq, Prod.mk.injEq] at h
      exact ⟨[], by simp, by simp [← h.1, hc], by simp [← h.2, hc]⟩
    · rename_i hc
      split at h
      · rename_i l2 rest2 h2
        simp only [Option.some.injEq, Prod.mk.injEq] at h
        obtain ⟨p, hp1, hp2, hp3⟩ := ih l2 rest2 h2
        refine ⟨c :: p, ?_, ?_, ?_⟩
        · intro hm
          rcases List.mem_cons.mp hm with e | hm
          · exact hc e.symm
          · exact hp1 hm
        · simp [← h.1, hp2]
        · simp [← h.2, hp3]
      · simp at h

/-- One iteration of the loop of `reader`. -/
theorem reader_unfold (f : File) :
    reader f =
      match readUntil '\n' f.data with
      | some (l, rest) => TrimRight (String.mk l) "\r\n" :: reader (File.mk rest f.err)
      | none => [TrimRight (String.mk f.data) "\r\n"] := by
  rw [reader]
  simp only [ReadString]
  split <;> simp

theorem TrimRight_newline (p : List Char) :
    TrimRight (String.mk (p ++ ['\n'])) "\r\n" = TrimRight (String.mk p) "\r\n" := by
  apply String.ext
  rw [TrimRight_data, TrimRight_data]
  exact List.rdropWhile_concat_pos _ _ _ (by decide)

theorem splitOn_of_not_mem (d : Char) (l : List Char) (h : d ∉ l) : l.splitOn d = [l] := by
  rw [List.splitOn]
  apply List.splitOnP_eq_single
  intro x hx hxd
  have e : x = d := by simpa using hxd
  exact h (e ▸ hx)

theorem splitOn_first (d : Char) (p rest : List Char) (h : d ∉ p) :
    (p ++ d :: rest).splitOn d = p :: rest.splitOn d := by
  rw [List.splitOn, List.splitOn]
  apply List.splitOnP_first
  · intro x hx hxd
    have e : x = d := by simpa using hxd
    exact h (e ▸ hx)
  · simp

/-- The lines `reader` sends are the pieces of the content between newlines,
each trimmed. -/
theorem reader_eq_split (e : ReadError) :
    ∀ (n : Nat) (l : List Char), l.length = n →
      reader (File.mk l e) = (l.splitOn '\n').map (fun p => TrimRight (String.mk p) "\r\n") := by
  intro n
  induction n using Nat.strong_induction_on with
  | _ n ih =>
    intro l hn
    rw [reader_unfold]
    simp only
    split
    · rename_i pre rest h
      obtain ⟨p, hp1, hp2, hp3⟩ := readUntil_some _ _ _ _ h
      have hlen : rest.length < n := by
        rw [← hn, hp3]
        simp
        omega
      rw [ih _ hlen rest rfl, hp2, TrimRight_newline, hp3, splitOn_first _ _ _ hp1,
        List.map_cons]
    · rename_i h
      have hnot := readUntil_none _ _ h
      rw [splitOn_of_not_mem _ _ hnot]
      rfl

theorem length_splitOn (d : Char) (l : List Char) :
    (l.splitOn d).length = l.count d + 1 := by
  induction l with
  | nil => simp [List.splitOn]
  | cons c cs ih =>
    simp only [List.splitOn] at ih ⊢
    rw [List.splitOnP_cons]
    by_cases h : c = d
    · subst h
      simp [ih]
    · have h' : ¬ ((c == d) = true) := by simpa using h
      simp [h', ih, List.count_cons, h]

theorem rtakeWhile_after_sep (q : Char → Bool) (a : List Char) (d : Char) (hd : ¬ q d = true)
    (rest : List Char) : (a ++ d :: rest).rtakeWhile q = rest.rtakeWhile q := by
  induction rest using List.reverseRecOn with
  | nil =>
    rw [List.rtakeWhile_concat_neg _ _ _ hd, List.rtakeWhile_nil]
  | append_singleton r x ih =>
    have e : a ++ d :: (r ++ [x]) = (a ++ d :: r) ++ [x] := by simp
    rw [e, List.rtakeWhile_concat, List.rtakeWhile_concat, ih]

theorem getLast?_splitOn (d : Char) :
    ∀ (n : Nat) (l : List Char), l.length = n →
      (l.splitOn d).getLast? = some (l.rtakeWhile (fun c => c != d)) := by
  intro n
  induction n using Nat.strong_induction_on with
  | _ n ih =>
    intro l hn
    cases h : readUntil d l with
    | none =>
      have hnot := readUntil_none _ _ h
      have hall : ∀ x ∈ l, (x != d) = true := by
        intro x hx
        have hxd : x ≠ d := fun e => hnot (e ▸ hx)
        simpa using hxd
      rw [splitOn_of_not_mem _ _ hnot, List.rtakeWhile_eq_self_iff.mpr hall]
      rfl
    | some pr =>
      obtain ⟨pre, rest⟩ := pr
      obtain ⟨p, hp1, hp2, hp3⟩ := readUntil_some _ _ _ _ h
      have hlen : rest.length < n := by
        rw [← hn, hp3]
        simp
        omega
      have := ih _ hlen rest rfl
      rw [hp3, rtakeWhile_after_sep _ _ _ (by simp), ← this, splitOn_first _ _ _ hp1,
        List.getLast?_cons]
      cases h2 : (rest.splitOn d).getLast? with
      | none => exact absurd (List.getLast?_eq_none_iff.mp h2) (List.splitOnP_ne_nil _ _)
      | some v => rfl

theorem TrimRight_nil (cutset : String) : TrimRight (String.mk []) cutset = "" := rfl

/-- C10: for every file content read without error up to end-of-data, `reader`
emits, in order, the pieces obtained by splitting the content at each newline,
each with its trailing carriage returns and newlines removed: it emits (number
of newlines) + 1 lines, the last one being the trimmed text after the final
newline, which is the empty string when the content is empty or ends in a
newline. -/
theorem C10_reader_emits_split_lines (data pre : List Char) :
    reader (File.mk data ReadError.EOF) =
      (data.splitOn '\n').map (fun p => TrimRight (String.mk p) "\r\n") ∧
    (reader (File.mk data ReadError.EOF)).length = data.count '\n' + 1 ∧
    (reader (File.mk data ReadError.EOF)).getLast? =
      some (TrimRight (String.mk (data.rtakeWhile (fun c => c != '\n'))) "\r\n") ∧
    (reader (File.mk [] ReadError.EOF)).getLast? = some "" ∧
    (reader (File.mk (pre ++ ['\n']) ReadError.EOF)).getLast? = some "" := by
  have key : ∀ l : List Char, (reader (File.mk l ReadError.EOF)).getLast? =
      some (TrimRight (String.mk (l.rtakeWhile (fun c => c != '\n'))) "\r\n") := by
    intro l
    rw [reader_eq_split ReadError.EOF _ l rfl, List.getLast?_map, getLast?_splitOn '\n' _ l rfl]
    rfl
  refine ⟨reader_eq_split ReadError.EOF _ data rfl, ?_, key data, ?_, ?_⟩
  · rw [reader_eq_split ReadError.EOF _ data rfl, List.length_map, length_splitOn]
  · rw [key, List.rtakeWhile_nil, TrimRight_nil]
  · rw [key, List.rtakeWhile_concat_neg _ _ _ (by decide), TrimRight_nil]

/-! ## Claims about the rows of the merge, in either mode -/

/-- Every row sent by `outer` is an A row or a Both row carrying a line of A,
or a B row carrying a line of B. -/
theorem row_shape (ins : Bool) (EF : String → String → Bool) (A B : List String) :
    ∀ r ∈ outer ins EF A B,
      (∃ a ∈ A, r = out.mk a "" "") ∨ (∃ b ∈ B, r = out.mk "" b "") ∨
      (∃ a ∈ A, r = out.mk "" "" a) := by
  revert A B
  apply merge_induction
  · intro r hr
    simp [outer_nil_nil] at hr
  · intro a A ih r hr
    rw [outer_cons_nil] at hr
    rcases List.mem_cons.mp hr with rfl | hr
    · exact Or.inl ⟨a, List.mem_cons_self _ _, rfl⟩
    · rcases ih r hr with ⟨x, hx, e⟩ | ⟨x, hx, e⟩ | ⟨x, hx, e⟩
      · exact Or.inl ⟨x, List.mem_cons_of_mem _ hx, e⟩
      · exact Or.inr (Or.inl ⟨x, hx, e⟩)
      · exact Or.inr (Or.inr ⟨x, List.mem_cons_of_mem _ hx, e⟩)
  · intro b B ih r hr
    rw [outer_nil_cons] at hr
    rcases List.mem_cons.mp hr with rfl | hr
    · exact Or.inr (Or.inl ⟨b, List.mem_cons_self _ _, rfl⟩)
    · rcases ih r hr with ⟨x, hx, e⟩ | ⟨x, hx, e⟩ | ⟨x, hx, e⟩
      · exact Or.inl ⟨x, hx, e⟩
      · exact Or.inr (Or.inl ⟨x, List.mem_cons_of_mem _ hx, e⟩)
      · exact Or.inr (Or.inr ⟨x, hx, e⟩)
  · intro a A b B ih1 ih2 ih3 r hr
    rw [outer_cons_cons] at hr
    have lift1 : ((∃ x ∈ A, r = out.mk x "" "") ∨ (∃ x ∈ b :: B, r = out.mk "" x "") ∨
        (∃ x ∈ A, r = out.mk "" "" x)) →
        ((∃ x ∈ a :: A, r = out.mk x "" "") ∨ (∃ x ∈ b :: B, r = out.mk "" x "") ∨
        (∃ x ∈ a :: A, r = out.mk "" "" x)) := by
      rintro (⟨x, hx, e⟩ | ⟨x, hx, e⟩ | ⟨x, hx, e⟩)
      · exact Or.inl ⟨x, List.mem_cons_of_mem _ hx, e⟩
      · exact Or.inr (Or.inl ⟨x, hx, e⟩)
      · exact Or.inr (Or.inr ⟨x, List.mem_cons_of_mem _ hx, e⟩)
    have lift2 : ((∃ x ∈ a :: A, r = out.mk x "" "") ∨ (∃ x ∈ B, r = out.mk "" x "") ∨
        (∃ x ∈ a :: A, r = out.mk "" "" x)) →
        ((∃ x ∈ a :: A, r = out.mk x "" "") ∨ (∃ x ∈ b :: B, r = out.mk "" x "") ∨
        (∃ x ∈ a :: A, r = out.mk "" "" x)) := by
      rintro (⟨x, hx, e⟩ | ⟨x, hx, e⟩ | ⟨x, hx, e⟩)
      · exact Or.inl ⟨x, hx, e⟩
      · exact Or.inr (Or.inl ⟨x, List.mem_cons_of_mem _ hx, e⟩)
      · exact Or.inr (Or.inr ⟨x, hx, e⟩)
    have lift3 : ((∃ x ∈ A, r = out.mk x "" "") ∨ (∃ x ∈ B, r = out.mk "" x "") ∨
        (∃ x ∈ A, r = out.mk "" "" x)) →
        ((∃ x ∈ a :: A, r = out.mk x "" "") ∨ (∃ x ∈ b :: B, r = out.mk "" x "") ∨
        (∃ x ∈ a :: A, r = out.mk "" "" x)) := fun h =>
      lift1 (h.imp id (Or.imp (fun ⟨x, hx, e⟩ => ⟨x, List.mem_cons_of_mem _ hx, e⟩) id))
    split at hr
    · rcases List.mem_cons.mp hr with rfl | hr
      · exact Or.inr (Or.inr ⟨a, List.mem_cons_self _ _, rfl⟩)
      · exact lift3 (ih3 r hr)
    · split at hr
      · rcases List.mem_cons.mp hr with rfl | hr
        · exact Or.inl ⟨a, List.mem_cons_self _ _, rfl⟩
        · exact lift1 (ih1 r hr)
      · split at hr
        · rcases List.mem_cons.mp hr with rfl | hr
          · exact Or.inr (Or.inl ⟨b, List.mem_cons_self _ _, rfl⟩)
          · exact lift2 (ih2 r hr)
        · rename_i _ h1 h2
          have e : a = b := eq_of_not_lt_not_lt h1 h2
          rcases List.mem_cons.mp hr with rfl | hr
          · exact Or.inr (Or.inr ⟨a, List.mem_cons_self _ _, by rw [e]⟩)
          · exact lift3 (ih3 r hr)

theorem populated_A_row (x : String) : (out.mk x "" "").populated = if x ≠ "" then 1 else 0 := by
  simp [out.populated]

theorem populated_B_row (x : String) : (out.mk "" x "").populated = if x ≠ "" then 1 else 0 := by
  simp [out.populated]

theorem populated_Both_row (x : String) :
    (out.mk "" "" x).populated = if x ≠ "" then 1 else 0 := by
  simp [out.populated]

/-- C14: for all line sequences and either comparison mode, every row emitted
by `outer` has at most one non-empty slot among s1, s2 and s3. -/
theorem C14_at_most_one_slot (ins : Bool) (EF : String → String → Bool)
    (A B : List String) : ∀ r ∈ outer ins EF A B, r.populated ≤ 1 := by
  intro r hr
  rcases row_shape ins EF A B r hr with ⟨x, _, rfl⟩ | ⟨x, _, rfl⟩ | ⟨x, _, rfl⟩
  · rw [populated_A_row]; split <;> omega
  · rw [populated_B_row]; split <;> omega
  · rw [populated_Both_row]; split <;> omega

theorem C14_at_most_one_slot_witness :
    out.mk "" "" "Apple" ∈ outer true EqualFoldASCII ["Apple"] ["apple"] ∧
    (out.mk "" "" "Apple").populated ≤ 1 :=
  have h : out.mk "" "" "Apple" ∈ outer true EqualFoldASCII ["Apple"] ["apple"] := by
    rw [outer_insensitive_equal EqualFoldASCII _ _ _ _ (by decide)]
    exact List.mem_cons_self _ _
  ⟨h, C14_at_most_one_slot true EqualFoldASCII ["Apple"] ["apple"] _ h⟩

/-- C15 (as stated, refuted): for A = [""] (one empty-string line) and B empty,
`outer` emits one row, and that row has no populated slot. -/
theorem C15_empty_line_row_has_no_slot :
    ¬ ∀ r ∈ outer false EqualFoldASCII [""] [], r.populated = 1 := by
  intro h
  have hm : out.mk "" "" "" ∈ outer false EqualFoldASCII [""] [] := by
    rw [outer_cons_nil]
    exact List.mem_cons_self _ _
  exact absurd (h _ hm) (by decide)

/-- C15 (amended): for all line sequences and either comparison mode, every
row emitted by `outer` has exactly one populated slot or, being the row of an
empty-string line, has all three slots empty; for line sequences without
empty-string lines every row has exactly one populated slot. -/
theorem C15_exactly_one_slot (ins : Bool) (EF : String → String → Bool)
    (A B : List String) :
    (∀ r ∈ outer ins EF A B, r.populated = 1 ∨ r = out.mk "" "" "") ∧
    ("" ∉ A → "" ∉ B → ∀ r ∈ outer ins EF A B, r.populated = 1) := by
  constructor
  · intro r hr
    rcases row_shape ins EF A B r hr with ⟨x, _, rfl⟩ | ⟨x, _, rfl⟩ | ⟨x, _, rfl⟩
    · by_cases hx : x = ""
      · exact Or.inr (by rw [hx])
      · exact Or.inl (by rw [populated_A_row, if_pos hx])
    · by_cases hx : x = ""
      · exact Or.inr (by rw [hx])
      · exact Or.inl (by rw [populated_B_row, if_pos hx])
    · by_cases hx : x = ""
      · exact Or.inr (by rw [hx])
      · exact Or.inl (by rw [populated_Both_row, if_pos hx])
  · intro hA hB r hr
    rcases row_shape ins EF A B r hr with ⟨x, hx, rfl⟩ | ⟨x, hx, rfl⟩ | ⟨x, hx, rfl⟩
    · have hne : x ≠ "" := fun e => hA (e ▸ hx)
      rw [populated_A_row, if_pos hne]
    · have hne : x ≠ "" := fun e => hB (e ▸ hx)
      rw [populated_B_row, if_pos hne]
    · have hne : x ≠ "" := fun e => hA (e ▸ hx)
      rw [populated_Both_row, if_pos hne]

theorem C15_exactly_one_slot_witness :
    "" ∉ ["a", "b"] ∧ "" ∉ ["b"] ∧ out.mk "a" "" "" ∈ outer false EqualFoldASCII ["a", "b"] ["b"] ∧
    (out.mk "a" "" "").populated = 1 :=
  have hA : "" ∉ ["a", "b"] := by decide
  have hB : "" ∉ ["b"] := by decide
  have h : out.mk "a" "" "" ∈ outer false EqualFoldASCII ["a", "b"] ["b"] := by
    simp +decide [outer, outerLoop, recv]
  ⟨hA, hB, h, (C15_exactly_one_slot false EqualFoldASCII _ _).2 hA hB _ h⟩

/-! ## Termination and size of the merge -/

/-- The recursive loop is the iteration of `outerStep`. -/
theorem outerLoop_step (ins : Bool) (EF : String → String → Bool) (st : LoopState) :
    outerLoop ins EF st.s1 st.ok1 st.c1 st.s2 st.ok2 st.c2 =
      match outerStep ins EF st with
      | none => []
      | some (row, st') =>
        row :: outerLoop ins EF st'.s1 st'.ok1 st'.c1 st'.s2 st'.ok2 st'.c2 := by
  rw [outerLoop]
  simp only [outerStep]
  split_ifs <;> rfl

theorem recv_pending (c : List String) :
    (if (recv c).2.1 then 1 else 0) + (recv c).2.2.length = c.length := by
  cases c with
  | nil => rfl
  | cons x xs => simp [recv]; omega

/-- Every iteration that is not the `break` consumes one or two pending lines. -/
theorem outerStep_pending (ins : Bool) (EF : String → String → Bool) (st st' : LoopState)
    (row : out) (h : outerStep ins EF st = some (row, st')) :
    st'.pending < st.pending ∧ st.pending ≤ st'.pending + 2 := by
  obtain ⟨s1, ok1, c1, s2, ok2, c2⟩ := st
  have r1 := recv_pending c1
  have r2 := recv_pending c2
  cases ok1 <;> cases ok2 <;>
    simp only [outerStep, Bool.and_self, Bool.and_true, Bool.and_false, Bool.false_eq_true,
      if_true, if_false] at h
  · simp at h
  · simp only [Option.some.injEq, Prod.mk.injEq] at h
    rw [← h.2]
    simp only [LoopState.pending, if_true, Bool.false_eq_true, if_false]
    omega
  · simp only [Option.some.injEq, Prod.mk.injEq] at h
    rw [← h.2]
    simp only [LoopState.pending, if_true, Bool.false_eq_true, if_false]
    omega
  · split_ifs at h <;>
    · simp only [Option.some.injEq, Prod.mk.injEq] at h
      rw [← h.2]
      simp only [LoopState.pending, if_true, Bool.false_eq_true, if_false]
      omega

/-- With more fuel than pending lines the loop reaches its `break`, and the
rows sent are those of `outerLoop`. -/
theorem outerRun_of_pending (ins : Bool) (EF : String → String → Bool) :
    ∀ (fuel : Nat) (st : LoopState), st.pending < fuel →
      outerRun ins EF fuel st =
        some (outerLoop ins EF st.s1 st.ok1 st.c1 st.s2 st.ok2 st.c2) := by
  intro fuel
  induction fuel with
  | zero => intro st h; omega
  | succ n ih =>
    intro st h
    rw [outerRun, outerLoop_step]
    cases hs : outerStep ins EF st with
    | none => rfl
    | some p =>
      obtain ⟨row, st'⟩ := p
      have hp := (outerStep_pending ins EF st st' row hs).1
      simp only
      rw [ih st' (by omega)]

theorem init_pending (A B : List String) :
    (LoopState.init A B).pending = A.length + B.length := by
  have r1 := recv_pending A
  have r2 := recv_pending B
  simp only [LoopState.init, LoopState.pending]
  omega

theorem length_outer_bounds (ins : Bool) (EF : String → String → Bool) (A B : List String) :
    max A.length B.length ≤ (outer ins EF A B).length ∧
    (outer ins EF A B).length ≤ A.length + B.length := by
  revert A B
  apply merge_induction
  · simp [outer_nil_nil]
  · intro a A _
    rw [outer_nil_right]
    simp
  · intro b B _
    rw [outer_nil_left]
    simp
  · intro a A b B ih1 ih2 ih3
    rw [outer_cons_cons]
    simp only [List.length_cons] at ih1 ih2 ⊢
    split
    · simp only [List.length_cons]; omega
    · split
      · simp only [List.length_cons]; omega
      · split
        · simp only [List.length_cons]; omega
        · simp only [List.length_cons]; omega

/-- C19: for all line sequences and either comparison mode, the loop of `outer`
terminates (run with |A| + |B| + 1 iterations of fuel it reaches its `break`
and has sent the rows of `outer`), every iteration before the last consumes at
least one pending line, and the number n of rows satisfies
max(|A|, |B|) ≤ n ≤ |A| + |B|. -/
theorem C19_outer_terminates_and_size (ins : Bool) (EF : String → String → Bool)
    (A B : List String) :
    outerRun ins EF (A.length + B.length + 1) (LoopState.init A B) = some (outer ins EF A B) ∧
    (∀ (st st' : LoopState) (row : out), outerStep ins EF st = some (row, st') →
      st'.pending < st.pending) ∧
    max A.length B.length ≤ (outer ins EF A B).length ∧
    (outer ins EF A B).length ≤ A.length + B.length := by
  refine ⟨?_, fun st st' row h => (outerStep_pending ins EF st st' row h).1,
    length_outer_bounds ins EF A B⟩
  rw [outerRun_of_pending ins EF _ _ (by rw [init_pending]; omega)]
  rfl

theorem C19_outer_terminates_and_size_witness :
    outerRun true EqualFoldASCII 4 (LoopState.init ["Banana"] ["apple", "banana"]) =
      some (outer true EqualFoldASCII ["Banana"] ["apple", "banana"]) ∧
    (LoopState.mk "" false [] "apple" true ["banana"]).pending <
      (LoopState.init ["Banana"] ["apple", "banana"]).pending ∧
    max 1 2 ≤ (outer true EqualFoldASCII ["Banana"] ["apple", "banana"]).length ∧
    (outer true EqualFoldASCII ["Banana"] ["apple", "banana"]).length ≤ 1 + 2 :=
  have h := C19_outer_terminates_and_size true EqualFoldASCII ["Banana"] ["apple", "banana"]
  ⟨h.1, h.2.1 _ _ (out.mk "Banana" "" "") (by simp +decide [outerStep, LoopState.init, recv]),
    h.2.2⟩

/-! ## Lines are neither dropped nor duplicated, in either mode -/

theorem textA_outer (ins : Bool) (EF : String → String → Bool) (A B : List String) :
    nonEmptyLines ((outer ins EF A B).map (fun r => r.s1 ++ r.s3)) = nonEmptyLines A := by
  revert A B
  apply merge_induction
  · simp [outer_nil_nil]
  · intro a A ih
    rw [outer_cons_nil]
    simp [nonEmptyLines_cons, ih]
  · intro b B ih
    rw [outer_nil_cons]
    simp [nonEmptyLines_cons, ih]
  · intro a A b B ih1 ih2 ih3
    rw [outer_cons_cons]
    split
    · simp [nonEmptyLines_cons, ih3]
    · split
      · simp [nonEmptyLines_cons, ih1]
      · split
        · simp [nonEmptyLines_cons, ih2]
        · rename_i _ h1 h2
          have hab : a = b := eq_of_not_lt_not_lt h1 h2
          subst hab
          simp [nonEmptyLines_cons, ih3]

theorem textB_outer_insensitive (EF : String → String → Bool)
    (hrefl : ∀ s, EF s s = true)
    (hempty : ∀ s t, EF s t = true → (s = "" ↔ t = "")) (A B : List String) :
    List.Forall₂ (fun t b => EF t b = true)
      (nonEmptyLines ((outer true EF A B).map (fun r => r.s2 ++ r.s3))) (nonEmptyLines B) := by
  have keep : ∀ (t b : String) (T L : List String), EF t b = true →
      List.Forall₂ (fun t b => EF t b = true) (nonEmptyLines T) (nonEmptyLines L) →
      List.Forall₂ (fun t b => EF t b = true) (nonEmptyLines (t :: T)) (nonEmptyLines (b :: L)) := by
    intro t b T L htb h
    rw [nonEmptyLines_cons, nonEmptyLines_cons]
    by_cases ht : t = ""
    · rw [if_pos ht, if_pos ((hempty t b htb).mp ht)]
      exact h
    · rw [if_neg ht, if_neg (fun hb => ht ((hempty t b htb).mpr hb))]
      exact List.Forall₂.cons htb h
  have skip : ∀ (T L : List String),
      List.Forall₂ (fun t b => EF t b = true) (nonEmptyLines T) (nonEmptyLines L) →
      List.Forall₂ (fun t b => EF t b = true) (nonEmptyLines ("" :: T)) (nonEmptyLines L) := by
    intro T L h
    rw [nonEmptyLines_cons, if_pos rfl]
    exact h
  revert A B
  apply merge_induction
  · rw [outer_nil_nil]
    exact List.Forall₂.nil
  · intro a A ih
    rw [outer_cons_nil, List.map_cons]
    exact skip _ _ ih
  · intro b B ih
    rw [outer_nil_cons, List.map_cons]
    simp only [String.empty_append, String.append_empty]
    exact keep b b _ _ (hrefl b) ih
  · intro a A b B ih1 ih2 ih3
    rw [outer_cons_cons]
    split
    · rename_i h
      have hab : EF a b = true := by simpa using h
      rw [List.map_cons]
      simp only [String.empty_append]
      exact keep a b _ _ hab ih3
    · split
      · rw [List.map_cons]
        exact skip _ _ ih1
      · split
        · rw [List.map_cons]
          simp only [String.empty_append, String.append_empty]
          exact keep b b _ _ (hrefl b) ih2
        · rw [List.map_cons]
          simp only [String.empty_append]
          exact keep b b _ _ (hrefl b) ih3

theorem EqualFoldASCII_refl (s : String) : EqualFoldASCII s s = true := by
  simp [EqualFoldASCII]

theorem EqualFoldASCII_empty (s t : String) (h : EqualFoldASCII s t = true) :
    s = "" ↔ t = "" := by
  have e : s.data.map Char.toLower = t.data.map Char.toLower := by
    simpa [EqualFoldASCII] using h
  have hl : s.data.length = t.data.length := by
    have := congrArg List.length e
    simpa using this
  have hs : s = "" ↔ s.data = [] := ⟨fun h => by rw [h], fun h => String.ext h⟩
  have ht : t = "" ↔ t.data = [] := ⟨fun h => by rw [h], fun h => String.ext h⟩
  rw [hs, ht, ← List.length_eq_zero, ← List.length_eq_zero, hl]

/-- C20: in case-insensitive mode, for all line sequences (sorted or not), the
s1-or-s3 texts of the emitted rows, in emission order, are exactly A in A's
order, and the s2-or-s3 texts form a sequence of the same length as B whose
i-th entry is equal under case folding to B's i-th line, empty-string lines
being disregarded on both sides.  `EqualFold` is any relation that holds
between a string and itself and relates the empty string only to itself, as
`strings.EqualFold` does. -/
theorem C20_insensitive_partition (EF : String → String → Bool)
    (hrefl : ∀ s, EF s s = true)
    (hempty : ∀ s t, EF s t = true → (s = "" ↔ t = "")) (A B : List String) :
    nonEmptyLines ((outer true EF A B).map (fun r => r.s1 ++ r.s3)) = nonEmptyLines A ∧
    (nonEmptyLines ((outer true EF A B).map (fun r => r.s2 ++ r.s3))).length =
      (nonEmptyLines B).length ∧
    List.Forall₂ (fun t b => EF t b = true)
      (nonEmptyLines ((outer true EF A B).map (fun r => r.s2 ++ r.s3))) (nonEmptyLines B) :=
  ⟨textA_outer true EF A B, (textB_outer_insensitive EF hrefl hempty A B).length_eq,
    textB_outer_insensitive EF hrefl hempty A B⟩

theorem C20_insensitive_partition_witness :
    nonEmptyLines ((outer true EqualFoldASCII ["Apple", "b"] ["apple", "C"]).map
      (fun r => r.s1 ++ r.s3)) = nonEmptyLines ["Apple", "b"] ∧
    (nonEmptyLines ((outer true EqualFoldASCII ["Apple", "b"] ["apple", "C"]).map
      (fun r => r.s2 ++ r.s3))).length = (nonEmptyLines ["apple", "C"]).length ∧
    List.Forall₂ (fun t b => EqualFoldASCII t b = true)
      (nonEmptyLines ((outer true EqualFoldASCII ["Apple", "b"] ["apple", "C"]).map
        (fun r => r.s2 ++ r.s3))) (nonEmptyLines ["apple", "C"]) :=
  C20_insensitive_partition EqualFoldASCII EqualFoldASCII_refl EqualFoldASCII_empty
    ["Apple", "b"] ["apple", "C"]

/-! ## Which rows the formatter prints -/

theorem printRow_eq_rowLine (f1 f2 f3 : Bool) (o : out) :
    printRow f1 f2 f3 o =
      if rowLine f1 f2 f3 o != "\t\t" then some (TrimRight (rowLine f1 f2 f3 o) "\t")
      else none := rfl

/-- The characters of the line built for a row: each unsuppressed slot, with a
tab after the first and after the second column. -/
theorem rowLine_data (f1 f2 f3 : Bool) (o : out) :
    (rowLine f1 f2 f3 o).data =
      (if f1 then [] else o.s1.data) ++ '\t' ::
        ((if f2 then [] else o.s2.data) ++ '\t' :: (if f3 then [] else o.s3.data)) := by
  cases f1 <;> cases f2 <;> cases f3 <;> simp [rowLine]

theorem string_eq_empty_iff (s : String) : s = "" ↔ s.data = [] :=
  ⟨fun h => by rw [h], fun h => String.ext h⟩

theorem shown_eq_nil_iff (f : Bool) (s : String) :
    (if f then [] else s.data) = [] ↔ (f = true ∨ s = "") := by
  cases f <;> simp [string_eq_empty_iff]

/-- The line built for a row is exactly two tabs when every unsuppressed slot
is empty, and only then. -/
theorem rowLine_eq_tabs_iff (f1 f2 f3 : Bool) (o : out) :
    rowLine f1 f2 f3 o = "\t\t" ↔
      (f1 = true ∨ o.s1 = "") ∧ (f2 = true ∨ o.s2 = "") ∧ (f3 = true ∨ o.s3 = "") := by
  rw [← shown_eq_nil_iff, ← shown_eq_nil_iff, ← shown_eq_nil_iff]
  constructor
  · intro h
    have hd := congrArg String.data h
    rw [rowLine_data] at hd
    have hl := congrArg List.length hd
    simp only [List.length_append, List.length_cons] at hl
    simp only [List.length_nil] at hl
    refine ⟨List.length_eq_zero.mp ?_, List.length_eq_zero.mp ?_, List.length_eq_zero.mp ?_⟩ <;>
      omega
  · rintro ⟨h1, h2, h3⟩
    apply String.ext
    rw [rowLine_data, h1, h2, h3]
    rfl

theorem printRow_eq_none_iff (f1 f2 f3 : Bool) (o : out) :
    printRow f1 f2 f3 o = none ↔
      (f1 = true ∨ o.s1 = "") ∧ (f2 = true ∨ o.s2 = "") ∧ (f3 = true ∨ o.s3 = "") := by
  rw [← rowLine_eq_tabs_iff, printRow_eq_rowLine]
  by_cases h : rowLine f1 f2 f3 o = "\t\t" <;> simp [h]

theorem printRow_isSome_iff (f1 f2 f3 : Bool) (o : out) :
    (printRow f1 f2 f3 o).isSome = true ↔
      (f1 = false ∧ o.s1 ≠ "") ∨ (f2 = false ∧ o.s2 ≠ "") ∨ (f3 = false ∧ o.s3 ≠ "") := by
  rw [Option.isSome_iff_ne_none, Ne, printRow_eq_none_iff]
  cases f1 <;> cases f2 <;> cases f3 <;> simp <;> tauto

theorem shown_all_tabs_iff (f : Bool) (s : String) :
    (∀ c ∈ (if f then [] else s.data), c = '\t') ↔ (f = true ∨ ∀ c ∈ s.data, c = '\t') := by
  cases f <;> simp

/-- Trimming the line built for a row leaves nothing when every unsuppressed
slot consists of tabs only, and only then. -/
theorem trimmed_rowLine_eq_empty_iff (f1 f2 f3 : Bool) (o : out) :
    TrimRight (rowLine f1 f2 f3 o) "\t" = "" ↔
      (f1 = true ∨ ∀ c ∈ o.s1.data, c = '\t') ∧ (f2 = true ∨ ∀ c ∈ o.s2.data, c = '\t') ∧
      (f3 = true ∨ ∀ c ∈ o.s3.data, c = '\t') := by
  rw [string_eq_empty_iff, TrimRight_data, List.rdropWhile_eq_nil_iff, rowLine_data,
    ← shown_all_tabs_iff, ← shown_all_tabs_iff, ← shown_all_tabs_iff]
  have e : ∀ c : Char, ("\t".data.contains c) = true ↔ c = '\t' := by
    intro c
    simp
  simp only [e, List.mem_append, List.mem_cons]
  constructor
  · intro h
    exact ⟨fun c hc => h c (Or.inl hc), fun c hc => h c (Or.inr (Or.inr (Or.inl hc))),
      fun c hc => h c (Or.inr (Or.inr (Or.inr (Or.inr hc))))⟩
  · rintro ⟨h1, h2, h3⟩ c (hc | rfl | hc | rfl | hc)
    · exact h1 c hc
    · rfl
    · exact h2 c hc
    · rfl
    · exact h3 c hc

/-- C11 (as stated, refuted): with no column suppressed, for the A-only row of
a line made of one tab, the rendering left after trimming is empty, and yet the
formatter prints a line for the row, and that line is empty. -/
theorem C11_tab_line_prints_empty_line :
    TrimRight (rowLine false false false (out.mk "\t" "" "")) "\t" = "" ∧
    printRow false false false (out.mk "\t" "" "") = some "" := by
  decide

/-- C11 (amended): for every row and every setting of the three suppression
flags, the formatter prints a line for the row if and only if the line it
built differs from two tabs, that is if and only if some unsuppressed slot is
non-empty; when no unsuppressed slot is a non-empty run of tabs, this holds if
and only if the rendering left after trimming trailing tabs is non-empty, and
the printed line is not empty. -/
theorem C11_prints_iff_unsuppressed_text (f1 f2 f3 : Bool) (o : out) :
    ((printRow f1 f2 f3 o).isSome = true ↔ rowLine f1 f2 f3 o ≠ "\t\t") ∧
    ((printRow f1 f2 f3 o).isSome = true ↔
      (f1 = false ∧ o.s1 ≠ "") ∨ (f2 = false ∧ o.s2 ≠ "") ∨ (f3 = false ∧ o.s3 ≠ "")) ∧
    ((f1 = false → o.s1 ≠ "" → ∃ c ∈ o.s1.data, c ≠ '\t') →
      (f2 = false → o.s2 ≠ "" → ∃ c ∈ o.s2.data, c ≠ '\t') →
      (f3 = false → o.s3 ≠ "" → ∃ c ∈ o.s3.data, c ≠ '\t') →
      ((printRow f1 f2 f3 o).isSome = true ↔ TrimRight (rowLine f1 f2 f3 o) "\t" ≠ "") ∧
      printRow f1 f2 f3 o ≠ some "") := by
  have key : ∀ (f : Bool) (s : String), (f = false → s ≠ "" → ∃ c ∈ s.data, c ≠ '\t') →
      ((f = true ∨ ∀ c ∈ s.data, c = '\t') ↔ (f = true ∨ s = "")) := by
    intro f s h
    constructor
    · rintro (hf | hall)
      · exact Or.inl hf
      · cases f with
        | true => exact Or.inl rfl
        | false =>
          right
          by_contra hne
          obtain ⟨c, hc, hct⟩ := h rfl hne
          exact hct (hall c hc)
    · rintro (hf | hs)
      · exact Or.inl hf
      · right
        rw [hs]
        intro c hc
        simp at hc
  have hnone : (printRow f1 f2 f3 o).isSome = true ↔ rowLine f1 f2 f3 o ≠ "\t\t" := by
    rw [Option.isSome_iff_ne_none, Ne, Ne, printRow_eq_none_iff, rowLine_eq_tabs_iff]
  refine ⟨hnone, printRow_isSome_iff f1 f2 f3 o, ?_⟩
  intro h1 h2 h3
  have htrim : TrimRight (rowLine f1 f2 f3 o) "\t" = "" ↔ rowLine f1 f2 f3 o = "\t\t" := by
    rw [trimmed_rowLine_eq_empty_iff, rowLine_eq_tabs_iff, key f1 _ h1, key f2 _ h2,
      key f3 _ h3]
  constructor
  · rw [hnone, Ne, Ne, htrim]
  · intro hp
    rw [printRow_eq_rowLine] at hp
    split at hp
    · rename_i hne
      have hne' : rowLine f1 f2 f3 o ≠ "\t\t" := by simpa using hne
      simp only [Option.some.injEq] at hp
      exact hne' (htrim.mp hp)
    · simp at hp

theorem C11_prints_iff_unsuppressed_text_witness :
    ((printRow false true false (out.mk "" "" "a\tb")).isSome = true ↔
      TrimRight (rowLine false true false (out.mk "" "" "a\tb")) "\t" ≠ "") ∧
    printRow false true false (out.mk "" "" "a\tb") ≠ some "" :=
  (C11_prints_iff_unsuppressed_text false true false (out.mk "" "" "a\tb")).2.2
    (fun _ h => absurd rfl h) (fun h => absurd h (by decide))
    (fun _ _ => ⟨'a', by decide, by decide⟩)

/-- C12: suppressing a column removes its text but keeps its separator slot.
For every row, the line built is the unsuppressed slots in the order A, B,
Both with a tab after the first and after the second, whatever the flags, and
the line printed with a column suppressed is the line printed, with that
column unsuppressed, for the row with that column's text removed; a row whose
text is all in one column is not printed once that column is suppressed.  For a
row whose text is all in one column, whose own flag is off, the printed line is
the same for every setting of the other two flags; for x non-empty and not
ending in a tab a B-only line prints as one tab followed by x and a Both line
as two tabs followed by x even when column 1 or column 2 is suppressed. -/
theorem C12_separator_slots_kept (x a b c : String) (f1 f2 f3 g1 g2 g3 : Bool) :
    rowLine f1 f2 f3 (out.mk a b c) =
      (if f1 then "" else a) ++ "\t" ++ (if f2 then "" else b) ++ "\t" ++
        (if f3 then "" else c) ∧
    printRow true f2 f3 (out.mk a b c) = printRow false f2 f3 (out.mk "" b c) ∧
    printRow f1 true f3 (out.mk a b c) = printRow f1 false f3 (out.mk a "" c) ∧
    printRow f1 f2 true (out.mk a b c) = printRow f1 f2 false (out.mk a b "") ∧
    printRow true f2 f3 (out.mk x "" "") = none ∧
    printRow f1 true f3 (out.mk "" x "") = none ∧
    printRow f1 f2 true (out.mk "" "" x) = none ∧
    printRow false f2 f3 (out.mk x "" "") = printRow false g2 g3 (out.mk x "" "") ∧
    printRow f1 false f3 (out.mk "" x "") = printRow g1 false g3 (out.mk "" x "") ∧
    printRow f1 f2 false (out.mk "" "" x) = printRow g1 g2 false (out.mk "" "" x) ∧
    (x ≠ "" → x.data.getLast? ≠ some '\t' →
      printRow f1 false f3 (out.mk "" x "") = some ("\t" ++ x) ∧
      printRow f1 f2 false (out.mk "" "" x) = some ("\t\t" ++ x)) := by
  have hA : ∀ a b : Bool,
      printRow false a b (out.mk x "" "") = printRow false false false (out.mk x "" "") := by
    intro a b
    cases a <;> cases b <;> simp [printRow]
  have hB : ∀ a b : Bool,
      printRow a false b (out.mk "" x "") = printRow false false false (out.mk "" x "") := by
    intro a b
    cases a <;> cases b <;> simp [printRow]
  have hC : ∀ a b : Bool,
      printRow a b false (out.mk "" "" x) = printRow false false false (out.mk "" "" x) := by
    intro a b
    cases a <;> cases b <;> simp [printRow]
  refine ⟨?_, ?_, ?_, ?_, ?_, ?_, ?_, by rw [hA f2 f3, hA g2 g3], by rw [hB f1 f3, hB g1 g3],
    by rw [hC f1 f2, hC g1 g2], ?_⟩
  · cases f1 <;> cases f2 <;> cases f3 <;> simp [rowLine]
  · simp [printRow]
  · simp [printRow]
  · simp [printRow]
  · exact (printRow_eq_none_iff _ _ _ _).mpr ⟨Or.inl rfl, Or.inr rfl, Or.inr rfl⟩
  · exact (printRow_eq_none_iff _ _ _ _).mpr ⟨Or.inr rfl, Or.inl rfl, Or.inr rfl⟩
  · exact (printRow_eq_none_iff _ _ _ _).mpr ⟨Or.inr rfl, Or.inr rfl, Or.inl rfl⟩
  · intro hx ht
    exact ⟨by rw [hB f1 f3, printRow_B_only x hx ht], by rw [hC f1 f2, printRow_Both x hx ht]⟩

theorem C12_separator_slots_kept_witness :
    "c d" ≠ "" ∧ "c d".data.getLast? ≠ some '\t' ∧
    printRow true false false (out.mk "a" "b" "") = printRow false false false (out.mk "" "b" "") ∧
    printRow true true true (out.mk "c d" "" "") = none ∧
    printRow true false true (out.mk "" "c d" "") = some ("\t" ++ "c d") ∧
    printRow true true false (out.mk "" "" "c d") = some ("\t\t" ++ "c d") :=
  have h := C12_separator_slots_kept "c d" "a" "b" "" true false false false false false
  have k := C12_separator_slots_kept "c d" "a" "b" "" true true true false false false
  ⟨by decide, by decide, h.2.1, k.2.2.2.2.1, k.2.2.2.2.2.2.2.2.2.2 (by decide) (by decide)⟩

/-- C13 (as stated, refuted): the A-only row of the line "a" is printed as the
non-empty line "a" with no column suppressed, and is skipped when column 1 is
suppressed. -/
theorem C13_suppression_skips_row :
    printRow false false false (out.mk "a" "" "") = some "a" ∧
    printRow true false false (out.mk "a" "" "") = none := by
  decide

/-- C13 (amended): for every row and every setting of the three suppression
flags, a row that is skipped stays skipped when a flag is turned on;
suppressing a column whose slot is empty in the row changes neither whether the
row is printed nor the line printed; and a row whose text is all in one column
is skipped once that column is suppressed. -/
theorem C13_suppression_and_emission (f1 f2 f3 : Bool) (o : out) :
    (printRow f1 f2 f3 o = none →
      printRow true f2 f3 o = none ∧ printRow f1 true f3 o = none ∧
      printRow f1 f2 true o = none) ∧
    (o.s1 = "" → printRow true f2 f3 o = printRow f1 f2 f3 o) ∧
    (o.s2 = "" → printRow f1 true f3 o = printRow f1 f2 f3 o) ∧
    (o.s3 = "" → printRow f1 f2 true o = printRow f1 f2 f3 o) ∧
    (o.s2 = "" → o.s3 = "" → printRow true f2 f3 o = none) ∧
    (o.s1 = "" → o.s3 = "" → printRow f1 true f3 o = none) ∧
    (o.s1 = "" → o.s2 = "" → printRow f1 f2 true o = none) := by
  refine ⟨?_, ?_, ?_, ?_, ?_, ?_, ?_⟩
  · intro h
    rw [printRow_eq_none_iff] at h
    obtain ⟨h1, h2, h3⟩ := h
    exact ⟨(printRow_eq_none_iff _ _ _ _).mpr ⟨Or.inl rfl, h2, h3⟩,
      (printRow_eq_none_iff _ _ _ _).mpr ⟨h1, Or.inl rfl, h3⟩,
      (printRow_eq_none_iff _ _ _ _).mpr ⟨h1, h2, Or.inl rfl⟩⟩
  · intro h
    obtain ⟨s1, s2, s3⟩ := o
    simp only at h
    subst h
    cases f1 <;> simp [printRow]
  · intro h
    obtain ⟨s1, s2, s3⟩ := o
    simp only at h
    subst h
    cases f2 <;> simp [printRow]
  · intro h
    obtain ⟨s1, s2, s3⟩ := o
    simp only at h
    subst h
    cases f3 <;> simp [printRow]
  · intro h2 h3
    exact (printRow_eq_none_iff _ _ _ _).mpr ⟨Or.inl rfl, Or.inr h2, Or.inr h3⟩
  · intro h1 h3
    exact (printRow_eq_none_iff _ _ _ _).mpr ⟨Or.inr h1, Or.inl rfl, Or.inr h3⟩
  · intro h1 h2
    exact (printRow_eq_none_iff _ _ _ _).mpr ⟨Or.inr h1, Or.inr h2, Or.inl rfl⟩

theorem C13_suppression_and_emission_witness :
    printRow true false false (out.mk "" "" "b") = printRow false false false (out.mk "" "" "b") ∧
    printRow false false true (out.mk "" "" "b") = none :=
  have h := C13_suppression_and_emission false false false (out.mk "" "" "b")
  ⟨h.2.1 rfl, h.2.2.2.2.2.2 rfl rfl⟩

/-! ## Read errors and failed opens -/

theorem reader_err_irrelevant (l : List Char) (e e' : ReadError) :
    reader (File.mk l e) = reader (File.mk l e') := by
  rw [reader_eq_split e _ l rfl, reader_eq_split e' _ l rfl]

/-- C16 (as stated, refuted): on the stream that delivers "a", a newline and
"bc" and then fails with an error other than end-of-data, the last read returns
the partial data "bc" together with the error, and `reader` emits it: the
emitted lines are "a" and "bc", not only the completed line "a". -/
theorem C16_partial_data_is_emitted :
    (ReadString '\n' (File.mk "bc".data ReadError.other)).1 = "bc" ∧
    (ReadString '\n' (File.mk "bc".data ReadError.other)).2.1 = some ReadError.other ∧
    reader (File.mk "a\nbc".data ReadError.other) = ["a", "bc"] ∧
    reader (File.mk "a\nbc".data ReadError.other) ≠ ["a"] := by
  have h : reader (File.mk "a\nbc".data ReadError.other) = ["a", "bc"] := by
    rw [reader_eq_split ReadError.other _ _ rfl]
    decide
  refine ⟨by decide, by decide, h, ?_⟩
  rw [h]
  decide

/-- C16 (amended): when a read of the underlying stream fails with an error
other than end-of-data, `reader` does what it does at end-of-data: the emitted
lines are the lines completed by earlier successful reads, followed by the
partial data returned together with the error, trimmed; then the sequence
ends. -/
theorem C16_read_error_like_end_of_data (data : List Char) :
    reader (File.mk data ReadError.other) = reader (File.mk data ReadError.EOF) ∧
    reader (File.mk data ReadError.other) =
      ((data.splitOn '\n').dropLast.map (fun p => TrimRight (String.mk p) "\r\n")) ++
        [TrimRight (String.mk (data.rtakeWhile (fun c => c != '\n'))) "\r\n"] := by
  refine ⟨reader_err_irrelevant data _ _, ?_⟩
  rw [reader_eq_split ReadError.other _ data rfl]
  have h := List.dropLast_append_getLast? _ (by rw [getLast?_splitOn '\n' _ data rfl]; rfl)
  conv_lhs => rw [← h]
  rw [List.map_append]
  rfl

/-- C17 (code evaluated at the failing inputs): when `os.Open` fails for the
first file, or for the second one, `main` writes the error to standard error
and prints nothing, and the process ends with exit status 0; a wrong argument
count, by contrast, ends it with status 1. -/
theorem C17_failed_open_exits_zero :
    main false false false false EqualFoldASCII
        (fun _ => Except.error "open missing: no such file or directory") ["missing", "b"] =
      Outcome.mk [] [Diag.openError "open missing: no such file or directory"] 0 ∧
    main false false false false EqualFoldASCII
        (fun name => if name = "a" then Except.ok (File.mk "x\n".data ReadError.EOF)
          else Except.error "open missing: no such file or directory") ["a", "missing"] =
      Outcome.mk [] [Diag.openError "open missing: no such file or directory"] 0 ∧
    main false false false false EqualFoldASCII
        (fun _ => Except.error "open missing: no such file or directory") ["missing"] =
      Outcome.mk [] [Diag.usage] 1 := by
  refine ⟨rfl, ?_, rfl⟩
  decide

end Comm
